import Mathlib

/-!
Shallow embedding of the type-inference and cell-casting core of the
messytables repository (messytables/types.py), together with proofs of the
specification claims about it.

The embedding models:
- the raw cell values the code manipulates (strings, ints, floats,
  decimals, datetimes and None) as the inductive `Value`;
- each `CellType` class instance as the inductive `CellType` (the Date
  variant carries its bound format, mirroring `DateType.__init__`);
- `cast` as a total function into `Option Value`, where `Option.none`
  stands for the cast raising an exception;
- `test` for the classes in the candidate list `TYPES` as `classTest`
  (the default classmethod `CellType.test` plus the `DateType.test`
  override), and the instance-level `NullType.test` as `nullTest`;
- the column voting of `type_guess` and the row pass built by
  `types_processor`.

Python built-ins that the source calls (int(), float(), decimal.Decimal(),
datetime.strptime, str.lower, str.strip) are modelled as executable parsers
faithful to CPython 2.7 behaviour on the value domain above; non-finite
float literals (inf, nan) lie outside the modelled value domain and no
claim exercises them.
-/

/-- A raw cell value as handled by messytables: Python None, str, int,
float, decimal.Decimal or datetime. Floats and decimals are represented
exactly as mantissa times ten to the exponent; this is Decimal's own
internal representation, and the only float operations the code performs
(parsing, identity re-cast, truncation to int) are exact on it. Datetimes
carry year, month, day, hour, minute, second as `datetime.strptime`
produces them. -/
inductive Value where
  | none
  | str (s : String)
  | int (n : Int)
  | float (mant : Int) (exp : Int)
  | decimal (mant : Int) (exp : Int)
  | date (year mon mday hh mm ss : Nat)
deriving DecidableEq

/-- The Python classes of the cell-type taxonomy. -/
inductive PyClass where
  | stringT
  | nullT
  | integerT
  | floatT
  | decimalT
  | dateT
deriving DecidableEq

/-- A cell-type instance. Only the Date variant carries construction data:
its bound format, which is `Option.none` when `DateType(None)` was built
(the raw passthrough date type used by the excel reader). -/
inductive CellType where
  | string
  | null
  | integer
  | float
  | decimal
  | date (format : Option String)
deriving DecidableEq

/-- The class of an instance, as Python `__class__`. -/
def instClass : CellType → PyClass
  | .string => .stringT
  | .null => .nullT
  | .integer => .integerT
  | .float => .floatT
  | .decimal => .decimalT
  | .date _ => .dateT

/-- A distinguishing tag for each class, standing for the identity of the
Python class object (used by `__eq__` and `__hash__`). -/
def clsTag : PyClass → Nat
  | .stringT => 0
  | .nullT => 1
  | .integerT => 2
  | .floatT => 3
  | .decimalT => 4
  | .dateT => 5

/-- Python `__eq__` on cell-type instances, dispatched on the left operand
as Python does: `DateType.__eq__` compares class and bound format,
`CellType.__eq__` compares the classes alone. -/
def pyEq (a b : CellType) : Bool :=
  match a, b with
  | .date f, .date g => f = g
  | .date _, _ => false
  | _, _ => clsTag (instClass a) = clsTag (instClass b)

/-- A deterministic stand-in for the CPython hash of a string: the exact
CPython value is irrelevant, only that it is a function of the characters. -/
def strHash (s : String) : Nat :=
  s.data.foldl (fun h c => h * 31 + c.toNat) 7

/-- A stand-in for the CPython hash of `None`. -/
def noneHash : Nat := 17

/-- Python `__hash__` on cell-type instances: `hash(self.__class__)` for
the parameterless classes, `hash(self.__class__) + hash(self.format)` for
Date (`DateType.__hash__`). -/
def pyHash (t : CellType) : Nat :=
  match t with
  | .date f =>
      clsTag .dateT + (match f with | Option.none => noneHash | Option.some s => strHash s)
  | _ => clsTag (instClass t)

/-- Characters Python `str.strip` and `int()`/`float()` treat as
whitespace. -/
def pySpace (c : Char) : Bool :=
  c = ' ' ∨ c = '\t' ∨ c = '\n' ∨ c = '\r' ∨ c = '\x0b' ∨ c = '\x0c'

/-- Python `str.lower` on byte strings: ASCII lowercasing. -/
def pyLower (s : String) : String :=
  ⟨s.data.map (fun c => if 'A' ≤ c ∧ c ≤ 'Z' then Char.ofNat (c.toNat + 32) else c)⟩

/-- Python `str.strip`: drop leading and trailing whitespace. -/
def stripChars (cs : List Char) : List Char :=
  ((cs.dropWhile pySpace).reverse.dropWhile pySpace).reverse

/-- Python `str.strip` on strings. -/
def pyStrip (s : String) : String := ⟨stripChars s.data⟩

/-- The numeric value of a decimal digit character, if it is one. -/
def digitOf (c : Char) : Option Nat :=
  if '0' ≤ c ∧ c ≤ '9' then Option.some (c.toNat - 48) else Option.none

/-- The natural number denoted by a digit list (most significant first). -/
def natOfDigits (ds : List Char) : Nat :=
  ds.foldl (fun a c => a * 10 + (c.toNat - 48)) 0

/-- Split a character list into its maximal leading digit run and the
rest. -/
def splitDigits (cs : List Char) : List Char × List Char :=
  (cs.takeWhile (fun c => (digitOf c).isSome), cs.dropWhile (fun c => (digitOf c).isSome))

/-- Parse an optional sign, returning the sign as an Int factor. -/
def parseSign : List Char → Int × List Char
  | '+' :: rest => (1, rest)
  | '-' :: rest => (-1, rest)
  | cs => (1, cs)

/-- Parse the finite numeric literal grammar shared by Python `float(str)`
and `decimal.Decimal(str)`: optional sign, then digits with an optional
fraction part (at least one digit on one side of the point), then an
optional exponent part `e`/`E` sign digits. Surrounding whitespace has
already been stripped by the caller. The result is mantissa and decimal
exponent. -/
def parseNumeric (cs : List Char) : Option (Int × Int) :=
  let (sgn, cs1) := parseSign cs
  let (ip, r1) := splitDigits cs1
  let body : Option (Int × Int × List Char) :=
    match r1 with
    | '.' :: r2 =>
        let (fp, r3) := splitDigits r2
        if ip = [] ∧ fp = [] then Option.none
        else Option.some (sgn * ((natOfDigits (ip ++ fp) : Int)), -(fp.length : Int), r3)
    | _ =>
        if ip = [] then Option.none
        else Option.some (sgn * (natOfDigits ip : Int), 0, r1)
  match body with
  | Option.none => Option.none
  | Option.some (m, e, rest) =>
      match rest with
      | [] => Option.some (m, e)
      | c :: r4 =>
          if c = 'e' ∨ c = 'E' then
            let (esgn, r5) := parseSign r4
            let (eds, r6) := splitDigits r5
            if eds = [] ∨ r6 ≠ [] then Option.none
            else Option.some (m, e + esgn * (natOfDigits eds : Int))
          else Option.none

/-- Python `int(str)`: strip whitespace, optional sign, then a nonempty
run of decimal digits and nothing else. -/
def pyIntOfChars (cs : List Char) : Option Int :=
  let cs1 := stripChars cs
  let (sgn, cs2) := parseSign cs1
  let (ds, rest) := splitDigits cs2
  if ds = [] ∨ rest ≠ [] then Option.none
  else Option.some (sgn * (natOfDigits ds : Int))

/-- Truncation toward zero of mantissa times ten to the exponent, as
Python `int(float)` and `int(Decimal)` truncate. -/
def truncMantExp (m : Int) (e : Int) : Int :=
  if 0 ≤ e then m * (10 : Int) ^ e.toNat else Int.tdiv m ((10 : Int) ^ (-e).toNat)

/-- The fields a strptime match fills in, with the CPython defaults for
directives absent from the format (year 1900, January 1, midnight). -/
structure DT where
  year : Nat := 1900
  mon : Nat := 1
  mday : Nat := 1
  hh : Nat := 0
  mm : Nat := 0
  ss : Nat := 0
deriving DecidableEq

/-- Try to read two digit characters whose values satisfy `ok`, as the
two-character alternatives of a CPython `_strptime` directive regex. -/
def twoDigits (s : List Char) (ok : Nat → Nat → Bool) : Option (Nat × List Char) :=
  match s with
  | a :: b :: rest =>
      match digitOf a, digitOf b with
      | Option.some x, Option.some y =>
          if ok x y then Option.some (10 * x + y, rest) else Option.none
      | _, _ => Option.none
  | _ => Option.none

/-- Try to read one digit character whose value satisfies `ok`, the
one-character fallback alternative of a directive regex. -/
def oneDigit (s : List Char) (ok : Nat → Bool) : Option (Nat × List Char) :=
  match s with
  | a :: rest =>
      match digitOf a with
      | Option.some x => if ok x then Option.some (x, rest) else Option.none
      | Option.none => Option.none
  | [] => Option.none

/-- The regex alternations CPython `_strptime.TimeRE` compiles for each
supported directive, two-character alternatives first with backtracking to
the one-character alternative, exactly as the regex engine matches them:
month `1[0-2]|0[1-9]|[1-9]`, day `3[01]|[12][0-9]|0[1-9]|[1-9]`, hour
`2[0-3]|[0-1][0-9]|[0-9]`, minute `[0-5][0-9]|[0-9]`, second
`6[0-1]|[0-5][0-9]|[0-9]`, year exactly four digits. `matchFmt` walks the
format; a directive outside this set raises in CPython, which the model
renders as a failed match for every input. -/
def matchFmt : List Char → List Char → DT → Option DT
  | [], [], p => Option.some p
  | [], _ :: _, _ => Option.none
  | '%' :: 'Y' :: fr, s, p =>
      (match s with
       | a :: b :: c :: d :: rest =>
           match digitOf a, digitOf b, digitOf c, digitOf d with
           | Option.some w, Option.some x, Option.some y, Option.some z =>
               matchFmt fr rest { p with year := ((w * 10 + x) * 10 + y) * 10 + z }
           | _, _, _, _ => Option.none
       | _ => Option.none)
  | '%' :: 'm' :: fr, s, p =>
      (match (match twoDigits s (fun x y => (x = 1 ∧ y ≤ 2) ∨ (x = 0 ∧ 1 ≤ y)) with
              | Option.some (n, rest) => matchFmt fr rest { p with mon := n }
              | Option.none => Option.none) with
       | Option.some r => Option.some r
       | Option.none =>
           match oneDigit s (fun x => 1 ≤ x) with
           | Option.some (n, rest) => matchFmt fr rest { p with mon := n }
           | Option.none => Option.none)
  | '%' :: 'd' :: fr, s, p =>
      (match (match twoDigits s
                (fun x y => (x = 3 ∧ y ≤ 1) ∨ (1 ≤ x ∧ x ≤ 2) ∨ (x = 0 ∧ 1 ≤ y)) with
              | Option.some (n, rest) => matchFmt fr rest { p with mday := n }
              | Option.none => Option.none) with
       | Option.some r => Option.some r
       | Option.none =>
           match oneDigit s (fun x => 1 ≤ x) with
           | Option.some (n, rest) => matchFmt fr rest { p with mday := n }
           | Option.none => Option.none)
  | '%' :: 'H' :: fr, s, p =>
      (match (match twoDigits s (fun x y => (x = 2 ∧ y ≤ 3) ∨ x ≤ 1) with
              | Option.some (n, rest) => matchFmt fr rest { p with hh := n }
              | Option.none => Option.none) with
       | Option.some r => Option.some r
       | Option.none =>
           match oneDigit s (fun _ => true) with
           | Option.some (n, rest) => matchFmt fr rest { p with hh := n }
           | Option.none => Option.none)
  | '%' :: 'M' :: fr, s, p =>
      (match (match twoDigits s (fun x _ => x ≤ 5) with
              | Option.some (n, rest) => matchFmt fr rest { p with mm := n }
              | Option.none => Option.none) with
       | Option.some r => Option.some r
       | Option.none =>
           match oneDigit s (fun _ => true) with
           | Option.some (n, rest) => matchFmt fr rest { p with mm := n }
           | Option.none => Option.none)
  | '%' :: 'S' :: fr, s, p =>
      (match (match twoDigits s (fun x y => (x = 6 ∧ y ≤ 1) ∨ x ≤ 5) with
              | Option.some (n, rest) => matchFmt fr rest { p with ss := n }
              | Option.none => Option.none) with
       | Option.some r => Option.some r
       | Option.none =>
           match oneDigit s (fun _ => true) with
           | Option.some (n, rest) => matchFmt fr rest { p with ss := n }
           | Option.none => Option.none)
  | '%' :: '%' :: fr, s, p =>
      (match s with
       | '%' :: rest => matchFmt fr rest p
       | _ => Option.none)
  | '%' :: _ :: _, _, _ => Option.none
  | ['%'], _, _ => Option.none
  | c :: fr, c2 :: srest, p => if c = c2 then matchFmt fr srest p else Option.none
  | _ :: _, [], _ => Option.none

/-- Gregorian leap year, as `datetime` uses. -/
def isLeapYear (y : Nat) : Bool :=
  y % 4 = 0 ∧ (y % 100 ≠ 0 ∨ y % 400 = 0)

/-- Number of days in a month, as `datetime` validates. -/
def daysInMonth (y m : Nat) : Nat :=
  if m = 2 then (if isLeapYear y then 29 else 28)
  else if m = 4 ∨ m = 6 ∨ m = 9 ∨ m = 11 then 30 else 31

/-- The range checks the `datetime` constructor performs on the matched
fields (`datetime.strptime` builds a datetime from them and raises
ValueError outside these ranges). The directive regexes already bound the
month, hour and minute; the remaining checks are the year minimum, the
day-of-month against the month length, and seconds below sixty. -/
def validDT (p : DT) : Bool :=
  1 ≤ p.year ∧ p.mday ≤ daysInMonth p.year p.mon ∧ p.ss ≤ 59

/-- Python `datetime.strptime(s, fmt)`: match the format against the whole
string, then validate the resulting field values. -/
def pyStrptime (s fmt : String) : Option DT :=
  match matchFmt fmt.data s.data {} with
  | Option.some p => if validDT p then Option.some p else Option.none
  | Option.none => Option.none

/-- The datetime value a successful strptime produces. -/
def dtToValue (p : DT) : Value :=
  Value.date p.year p.mon p.mday p.hh p.mm p.ss

/-- Modelled from the spec: the source imports `DATE_FORMATS` from
`messytables.dateparser`, the external, ordered catalog of date and time
format patterns (name to pattern string) that `DateType.test` iterates;
that module is not among the provided sources. Following the spec, the
catalog is a fixed ordered association list of common patterns, including
the ISO pattern used by the spec examples. -/
def DATE_FORMATS : List (String × String) :=
  [("iso_date", "%Y-%m-%d"),
   ("iso_datetime", "%Y-%m-%dT%H:%M:%S"),
   ("compact_date", "%Y%m%d"),
   ("european_date", "%d/%m/%Y"),
   ("us_date", "%m/%d/%Y")]

/-- Python `int(value)` restricted to the modelled value domain:
`Option.none` stands for the TypeError or ValueError the builtin raises. -/
def pyInt : Value → Option Value
  | .str s => (pyIntOfChars s.data).map Value.int
  | .int n => Option.some (.int n)
  | .float m e => Option.some (.int (truncMantExp m e))
  | .decimal m e => Option.some (.int (truncMantExp m e))
  | _ => Option.none

/-- Python `float(value)` on the modelled value domain. -/
def pyFloat : Value → Option Value
  | .str s => (parseNumeric (stripChars s.data)).map (fun p => Value.float p.1 p.2)
  | .int n => Option.some (.float n 0)
  | .float m e => Option.some (.float m e)
  | .decimal m e => Option.some (.float m e)
  | _ => Option.none

/-- Python `decimal.Decimal(value)` on the modelled value domain (CPython
2.7 accepts str, int, float and Decimal arguments and raises on the
rest). -/
def pyDecimal : Value → Option Value
  | .str s => (parseNumeric (stripChars s.data)).map (fun p => Value.decimal p.1 p.2)
  | .int n => Option.some (.decimal n 0)
  | .float m e => Option.some (.decimal m e)
  | .decimal m e => Option.some (.decimal m e)
  | _ => Option.none

/-- The `cast` method of each cell-type instance; `Option.none` stands for
the exception a failed conversion raises. `StringType.cast` raises unless
the value is a string; `NullType.cast` returns None unconditionally;
the numeric casts call the builtins; `DateType.cast` is the identity when
no format is bound and otherwise calls `datetime.strptime`, which raises
a TypeError on non-string input. -/
def castV : CellType → Value → Option Value
  | .string, .str s => Option.some (.str s)
  | .string, _ => Option.none
  | .null, _ => Option.some .none
  | .integer, v => pyInt v
  | .float, v => pyFloat v
  | .decimal, v => pyDecimal v
  | .date Option.none, v => Option.some v
  | .date (Option.some fmt), .str s => (pyStrptime s fmt).map dtToValue
  | .date (Option.some _), _ => Option.none

/-- The zero-argument constructor `cls()` used by the default
`CellType.test`; `DateType()` raises a TypeError because its constructor
requires a format. -/
def instOf : PyClass → Option CellType
  | .stringT => Option.some .string
  | .nullT => Option.some .null
  | .integerT => Option.some .integer
  | .floatT => Option.some .float
  | .decimalT => Option.some .decimal
  | .dateT => Option.none

/-- The default classmethod `CellType.test`: construct an instance, try to
cast, return the instance on success and None on any exception. -/
def defaultTest (c : PyClass) (v : Value) : Option CellType :=
  match instOf c with
  | Option.none => Option.none
  | Option.some ins =>
      match castV ins v with
      | Option.some _ => Option.some ins
      | Option.none => Option.none

/-- The overridden classmethod `DateType.test`: iterate the format catalog
and return the first `DateType(format)` instance whose cast succeeds,
falling through to None (the implicit Python return) when none does. -/
def dateTestLoop : List (String × String) → Value → Option CellType
  | [], _ => Option.none
  | (_, fmt) :: rest, v =>
      match castV (.date (Option.some fmt)) v with
      | Option.some _ => Option.some (.date (Option.some fmt))
      | Option.none => dateTestLoop rest v

/-- The classmethod `test` as dispatched on a class: the Date override for
`DateType`, the inherited default elsewhere. -/
def classTest (c : PyClass) (v : Value) : Option CellType :=
  match c with
  | .dateT => dateTestLoop DATE_FORMATS v
  | _ => defaultTest c v

/-- The instance method `NullType.test`: True for None and for any string
that lowercases and strips to the literal null, False otherwise. -/
def nullTest (v : Value) : Bool :=
  match v with
  | .none => true
  | .str s => "null" = pyStrip (pyLower s)
  | _ => false

/-- What a Python test call can return across the taxonomy: None, a
boolean (the NullType override), or a cell-type instance. -/
inductive TestRet where
  | nonePy
  | boolPy (b : Bool)
  | instPy (t : CellType)
deriving DecidableEq

/-- Whether a test result is a cell-type instance. -/
def TestRet.isInst : TestRet → Bool
  | .instPy _ => true
  | _ => false

/-- Whether a test result is negative, meaning a falsy non-instance: the
None of the default and Date tests, or the False of the Null test. -/
def TestRet.isNegative : TestRet → Bool
  | .nonePy => true
  | .boolPy b => !b
  | .instPy _ => false

/-- The per-variant test operation of the taxonomy: the instance-level
override for NullType, the classmethod for every other class. Totality of
this function is the no-raise half of the test contract: every exception
of the underlying cast is already converted to a result by `defaultTest`
and `dateTestLoop`. -/
def testOp (c : PyClass) (v : Value) : TestRet :=
  match c with
  | .nullT => .boolPy (nullTest v)
  | _ =>
      match classTest c v with
      | Option.some t => .instPy t
      | Option.none => .nonePy

/-- The candidate list `TYPES` the guesser iterates, in source order. -/
def TYPES : List PyClass :=
  [.stringT, .integerT, .floatT, .decimalT, .dateT]

/-- Twice the guessing weight of an instance. The source weights are the
reals String 1, Null 1.5, Integer 1.5, Float 2, Decimal 2.5, Date 3 and
the guesser compares products count times weight; storing the doubled
weights keeps every such product in the naturals and preserves every
comparison, both sides being doubled. -/
def guessing_weight_x2 : CellType → Nat
  | .string => 2
  | .null => 3
  | .integer => 3
  | .float => 4
  | .decimal => 5
  | .date _ => 6

/-- One `guesses[i][guess] += 1` step on the association list modelling
the per-column counter dict: increment the first entry whose key is equal
to the new instance (dict lookup under `CellType.__eq__`), appending a
fresh entry with count one when there is none. -/
def bump : List (CellType × Nat) → CellType → List (CellType × Nat)
  | [], k => [(k, 1)]
  | (k0, n) :: rest, k =>
      if pyEq k0 k then (k0, n + 1) :: rest else (k0, n) :: bump rest k

/-- The positive test results one cell value contributes, in `TYPES`
order: the inner loop of `type_guess` for one cell. -/
def positives (v : Value) : List CellType :=
  TYPES.filterMap (fun c => classTest c v)

/-- The values appearing in column `i` of the sample, in row order. -/
def colValues (rows : List (List Value)) (i : Nat) : List Value :=
  rows.filterMap (fun r => r.get? i)

/-- The counter dict `guesses[i]` after the aggregation loops: every
positive test of every sampled value of the column, folded through the
increment. Within one column the source processes positives in row-major,
then `TYPES`, order. -/
def colGuess (rows : List (List Value)) (i : Nat) : List (CellType × Nat) :=
  ((colValues rows i).map positives).flatten.foldl bump []

/-- The weighting loop `guesses[i][type] *= type.guessing_weight`, on
doubled weights. -/
def weightCounts (g : List (CellType × Nat)) : List (CellType × Nat) :=
  g.map (fun p => (p.1, p.2 * guessing_weight_x2 p.1))

/-- The scan of Python `max(items, key)`: keep the current candidate
unless a strictly greater value appears, so the first maximal entry
wins. -/
def maxGo (t : CellType) (n : Nat) : List (CellType × Nat) → CellType
  | [] => t
  | (t2, n2) :: rest => if n < n2 then maxGo t2 n2 rest else maxGo t n rest

/-- `max(types.items(), key=count)[0]` for one column; None models the
impossibility of calling max on a column that never got a counter (such a
column has no dict entry at all and is skipped). -/
def maxByCount : List (CellType × Nat) → Option CellType
  | [] => Option.none
  | (t, n) :: rest => Option.some (maxGo t n rest)

/-- The number of columns the sample rows span. -/
def numCols (rows : List (List Value)) : Nat :=
  rows.foldl (fun a r => max a r.length) 0

/-- The type guesser `type_guess`: count positive tests per column and
per returned instance, weight the counts, and pick the maximum for every
column that has at least one counter. Column indices are emitted in
ascending order, as CPython iterates a small-int-keyed dict; a column
whose every value tests negative for every candidate never acquires a
counter dict and is omitted from the result. -/
def type_guess (rows : List (List Value)) : List CellType :=
  (List.range (numCols rows)).filterMap
    (fun i => maxByCount (weightCounts (colGuess rows i)))

/-- A cell: a raw value and the type the casting pass has stamped on it,
if any. -/
structure Cell where
  value : Value
  type : Option CellType
deriving DecidableEq

/-- One iteration of the casting loop body for a cell paired with a type:
on a successful cast both fields are assigned, on an exception the bare
`except: pass` leaves the cell exactly as it was. -/
def castCell (c : Cell) (t : CellType) : Cell :=
  match castV t c.value with
  | Option.some w => { value := w, type := Option.some t }
  | Option.none => c

/-- The `izip_longest(row, types)` loop of `apply_types`: when the type
list runs out the padded type is None and `type.cast` raises an
AttributeError that the except swallows, leaving the remaining cells
unchanged; when the row runs out the padded cell is None and `cell.value`
raises likewise, so extra types have no effect on the returned row. -/
def applyCells : List Cell → List CellType → List Cell
  | [], _ => []
  | cs, [] => cs
  | c :: cs, t :: ts => castCell c t :: applyCells cs ts

/-- The row pass built by `types_processor(types)`: the returned
`apply_types` ignores its row-set argument, returns the row unchanged when
`types` is None, and otherwise runs the casting loop over the row. -/
def types_processor (types : Option (List CellType)) (row : List Cell) : List Cell :=
  match types with
  | Option.none => row
  | Option.some ts => applyCells row ts

/-- The end-to-end sample rows of the spec example. -/
def sampleRows : List (List Value) :=
  [[.str "1", .str "2.5", .str "2020-01-01"],
   [.str "2", .str "3.1", .str "2020-02-02"]]

/-- The single-row sample whose first column holds only None, used to
exhibit column omission. -/
def noneColRows : List (List Value) :=
  [[Value.none, Value.str "1"]]

/-- The count a key holds in an association-list counter: the count of
the first entry with a Python-equal key, zero when there is none (the
dict lookup `guesses[i][guess]` under `CellType.__eq__`). -/
def keyCount : List (CellType × Nat) → CellType → Nat
  | [], _ => 0
  | (k0, n) :: rest, k => if pyEq k0 k then n else keyCount rest k

/-- The keys of an association-list counter, in order. -/
def keysOf (g : List (CellType × Nat)) : List CellType :=
  g.map Prod.fst

/-! Helper lemmas shared by the claim proofs. -/

theorem pyEq_iff (a b : CellType) : pyEq a b = true ↔ a = b := by
  cases a <;> cases b <;> simp [pyEq, clsTag, instClass]

theorem instOf_class (c : PyClass) (t : CellType) (h : instOf c = Option.some t) :
    instClass t = c := by
  cases c <;> simp [instOf] at h <;> simp [← h, instClass]

theorem defaultTest_eq_instOf (c : PyClass) (v : Value) (t : CellType)
    (h : defaultTest c v = Option.some t) : instOf c = Option.some t := by
  unfold defaultTest at h
  cases hi : instOf c with
  | none => simp [hi] at h
  | some ins =>
      simp only [hi] at h
      cases hc : castV ins v with
      | none => simp [hc] at h
      | some w =>
          simp only [hc, Option.some.injEq] at h
          subst h
          rfl

theorem dateTestLoop_shape (cat : List (String × String)) (v : Value) (t : CellType)
    (h : dateTestLoop cat v = Option.some t) :
    ∃ f, t = CellType.date (Option.some f) := by
  induction cat with
  | nil => exact absurd h (by simp [dateTestLoop])
  | cons p rest ih =>
      unfold dateTestLoop at h
      cases hc : castV (.date (Option.some p.2)) v with
      | none =>
          rw [hc] at h
          exact ih h
      | some w =>
          rw [hc] at h
          exact ⟨p.2, by simpa using h.symm⟩

theorem classTest_class (c : PyClass) (v : Value) (t : CellType)
    (h : classTest c v = Option.some t) : instClass t = c := by
  cases c with
  | dateT =>
      obtain ⟨f, rfl⟩ := dateTestLoop_shape DATE_FORMATS v t h
      rfl
  | stringT => exact instOf_class _ _ (defaultTest_eq_instOf .stringT v t h)
  | nullT => exact instOf_class _ _ (defaultTest_eq_instOf .nullT v t h)
  | integerT => exact instOf_class _ _ (defaultTest_eq_instOf .integerT v t h)
  | floatT => exact instOf_class _ _ (defaultTest_eq_instOf .floatT v t h)
  | decimalT => exact instOf_class _ _ (defaultTest_eq_instOf .decimalT v t h)

/-! Claim theorems. -/

/-- C1 (counterexample): on the sample rows of the spec example,
`type_guess` does not return the claimed list Integer, Float,
Date bound to the ISO pattern. -/
theorem type_guess_sample_not_integer_float :
    type_guess sampleRows ≠
      [CellType.integer, CellType.float, CellType.date (Option.some "%Y-%m-%d")] := by
  decide

/-- C1 (amended): on the sample rows of the spec example, `type_guess`
returns Decimal, Decimal, Date bound to the ISO pattern: every value of
the two numeric columns parses as Decimal as well, and the Decimal weight
2.5 exceeds the Float weight 2 and the Integer weight 1.5. -/
theorem type_guess_sample_decimal :
    type_guess sampleRows =
      [CellType.decimal, CellType.decimal, CellType.date (Option.some "%Y-%m-%d")] := by
  decide

/-- C3: `NullType.test` classifies None, the lowercased-and-stripped
literal null (so also NULL) as positive and the string no as negative, and
`NullType.cast` returns None on every input; but on the empty string the
test returns False, although the claim, the spec and the docstring of the
class itself say the empty string is positive. -/
theorem nullType_test_cast_eval :
    nullTest Value.none = true ∧ nullTest (.str "null") = true ∧
    nullTest (.str "NULL") = true ∧ nullTest (.str " null ") = true ∧
    nullTest (.str "") = false ∧ nullTest (.str "no") = false ∧
    ∀ v, castV .null v = Option.some Value.none := by
  refine ⟨by decide, by decide, by decide, by decide, by decide, by decide, ?_⟩
  intro v
  cases v <;> rfl

/-- C4 (counterexample): the test of the Null variant on the string null
returns the boolean True, which is neither a cell-type instance nor a
negative result, contradicting the claim that every positive test result
is an instance of the variant. -/
theorem nullType_test_not_instance :
    testOp .nullT (.str "null") = .boolPy true ∧
    (TestRet.boolPy true).isInst = false ∧
    (TestRet.boolPy true).isNegative = false := by
  decide

/-- C4 (amended): for every variant, test is total (never raises, every
cast failure being converted to a result); for every variant other than
Null the result is either None or an instance of that same variant, while
the overridden Null test instead returns a boolean. -/
theorem testOp_shape (c : PyClass) (v : Value) :
    (c ≠ .nullT →
      testOp c v = .nonePy ∨
        ∃ t, testOp c v = .instPy t ∧ instClass t = c) ∧
    (c = .nullT → testOp c v = .boolPy (nullTest v)) := by
  constructor
  · intro hne
    have hc : testOp c v =
        (match classTest c v with
         | Option.some t => TestRet.instPy t
         | Option.none => TestRet.nonePy) := by
      cases c
      · rfl
      · exact absurd rfl hne
      · rfl
      · rfl
      · rfl
      · rfl
    cases ht : classTest c v with
    | none => left; rw [hc, ht]
    | some t =>
        right
        exact ⟨t, by rw [hc, ht], classTest_class _ _ _ ht⟩
  · intro he
    subst he
    rfl

/-- C4 (witness): the theorem applied to the Integer variant and the
string 5. -/
theorem testOp_shape_integer_five :
    testOp .integerT (.str "5") = .nonePy ∨
      ∃ t, testOp .integerT (.str "5") = .instPy t ∧ instClass t = .integerT :=
  (testOp_shape .integerT (.str "5")).1 (by decide)

/-- C7: equality of cell-type instances under the Python eq dispatch is
exactly structural equality (same variant and, for Date, the same bound
format, which is what equality of the inductive values says), and equal
instances have equal hashes, the Date hash including the format. -/
theorem cellType_structural_eq_hash (a b : CellType) :
    (pyEq a b = true ↔ a = b) ∧ (pyEq a b = true → pyHash a = pyHash b) :=
  ⟨pyEq_iff a b, fun h => by rw [(pyEq_iff a b).mp h]⟩

/-- C7 (witness): the theorem applied to two Date instances bound to the
ISO pattern. -/
theorem cellType_eq_hash_iso_date :
    pyHash (CellType.date (Option.some "%Y-%m-%d")) =
      pyHash (CellType.date (Option.some "%Y-%m-%d")) :=
  (cellType_structural_eq_hash (CellType.date (Option.some "%Y-%m-%d"))
    (CellType.date (Option.some "%Y-%m-%d"))).2 (by decide)

/-- C10: a column whose only sampled value is None tests negative for all
five candidate types, acquires no counter, and is silently omitted: on a
one-row sample with two cells the guessed list has a single entry, the
type of the second column, now out of positional alignment. -/
theorem type_guess_omits_all_negative_column :
    positives Value.none = [] ∧
    type_guess noneColRows = [CellType.decimal] ∧
    noneColRows.map List.length = [2] := by
  decide

/-! Lemmas for the row-casting pass. -/

theorem applyCells_get?_failure :
    ∀ (row : List Cell) (ts : List CellType) (i : Nat) (c : Cell) (t : CellType),
      row.get? i = Option.some c → ts.get? i = Option.some t →
      castV t c.value = Option.none →
      (applyCells row ts).get? i = Option.some c := by
  intro row
  induction row with
  | nil => intro ts i c t h1 _ _; simp at h1
  | cons c0 cs ih =>
      intro ts i c t h1 h2 h3
      cases ts with
      | nil => simp at h2
      | cons t0 ts2 =>
          cases i with
          | zero =>
              simp at h1 h2
              subst h1
              subst h2
              simp [applyCells, castCell, h3]
          | succ n =>
              simp at h1 h2
              simpa [applyCells] using ih ts2 n c t (by simpa using h1) (by simpa using h2) h3

theorem applyCells_length (row : List Cell) :
    ∀ ts : List CellType, (applyCells row ts).length = row.length := by
  induction row with
  | nil => intro ts; cases ts <;> rfl
  | cons c0 cs ih =>
      intro ts
      cases ts with
      | nil => rfl
      | cons t0 ts2 => simp [applyCells, ih ts2]

theorem applyCells_get?_past (row : List Cell) :
    ∀ (ts : List CellType) (i : Nat) (c : Cell), ts.length ≤ i →
      row.get? i = Option.some c → (applyCells row ts).get? i = Option.some c := by
  induction row with
  | nil => intro ts i c _ h1; simp at h1
  | cons c0 cs ih =>
      intro ts i c hlen h1
      cases ts with
      | nil => simpa [applyCells] using h1
      | cons t0 ts2 =>
          cases i with
          | zero => simp at hlen
          | succ n =>
              simp at h1 hlen
              simpa [applyCells] using ih ts2 n c hlen (by simpa using h1)

theorem applyCells_take (row : List Cell) :
    ∀ ts : List CellType, applyCells row ts = applyCells row (ts.take row.length) := by
  induction row with
  | nil => intro ts; cases ts <;> rfl
  | cons c0 cs ih =>
      intro ts
      cases ts with
      | nil => rfl
      | cons t0 ts2 => simp [applyCells, List.take_succ_cons, ih ts2]

theorem pyInt_shape (v w : Value) (h : pyInt v = Option.some w) :
    ∃ n, w = Value.int n := by
  cases v with
  | str s =>
      cases hp : pyIntOfChars s.data with
      | none => simp [pyInt, hp] at h
      | some n =>
          simp [pyInt, hp] at h
          exact ⟨n, h.symm⟩
  | int n => simp [pyInt] at h; exact ⟨n, h.symm⟩
  | float m e => simp [pyInt] at h; exact ⟨_, h.symm⟩
  | decimal m e => simp [pyInt] at h; exact ⟨_, h.symm⟩
  | none => simp [pyInt] at h
  | date y mo d hh mm ss => simp [pyInt] at h

theorem pyFloat_shape (v w : Value) (h : pyFloat v = Option.some w) :
    ∃ m e, w = Value.float m e := by
  cases v with
  | str s =>
      cases hp : parseNumeric (stripChars s.data) with
      | none => simp [pyFloat, hp] at h
      | some p =>
          simp [pyFloat, hp] at h
          exact ⟨p.1, p.2, h.symm⟩
  | int n => simp [pyFloat] at h; exact ⟨_, _, h.symm⟩
  | float m e => simp [pyFloat] at h; exact ⟨_, _, h.symm⟩
  | decimal m e => simp [pyFloat] at h; exact ⟨_, _, h.symm⟩
  | none => simp [pyFloat] at h
  | date y mo d hh mm ss => simp [pyFloat] at h

theorem pyDecimal_shape (v w : Value) (h : pyDecimal v = Option.some w) :
    ∃ m e, w = Value.decimal m e := by
  cases v with
  | str s =>
      cases hp : parseNumeric (stripChars s.data) with
      | none => simp [pyDecimal, hp] at h
      | some p =>
          simp [pyDecimal, hp] at h
          exact ⟨p.1, p.2, h.symm⟩
  | int n => simp [pyDecimal] at h; exact ⟨_, _, h.symm⟩
  | float m e => simp [pyDecimal] at h; exact ⟨_, _, h.symm⟩
  | decimal m e => simp [pyDecimal] at h; exact ⟨_, _, h.symm⟩
  | none => simp [pyDecimal] at h
  | date y mo d hh mm ss => simp [pyDecimal] at h

theorem castV_idem (t : CellType) (v w : Value) (h : castV t v = Option.some w) :
    castV t w = Option.some w ∨ castV t w = Option.none := by
  cases t with
  | string =>
      cases v <;> simp [castV] at h
      case str s => left; rw [← h]; rfl
  | null =>
      have hw : w = Value.none := by
        cases v <;> simpa [castV] using h.symm
      left
      rw [hw]
      rfl
  | integer =>
      obtain ⟨n, rfl⟩ := pyInt_shape v w h
      left
      rfl
  | float =>
      obtain ⟨m, e, rfl⟩ := pyFloat_shape v w h
      left
      rfl
  | decimal =>
      obtain ⟨m, e, rfl⟩ := pyDecimal_shape v w h
      left
      rfl
  | date f =>
      cases f with
      | none =>
          simp [castV] at h
          left
          rw [← h]
          rfl
      | some fmt =>
          cases v <;> simp [castV] at h
          case str s =>
              obtain ⟨p, _, rfl⟩ := h
              right
              rfl

theorem castCell_idem (c : Cell) (t : CellType) :
    castCell (castCell c t) t = castCell c t := by
  cases h : castV t c.value with
  | none => simp [castCell, h]
  | some w =>
      cases castV_idem t c.value w h with
      | inl hs => simp [castCell, h, hs]
      | inr hn => simp [castCell, h, hn]

theorem applyCells_idem (row : List Cell) :
    ∀ ts : List CellType, applyCells (applyCells row ts) ts = applyCells row ts := by
  induction row with
  | nil => intro ts; cases ts <;> rfl
  | cons c0 cs ih =>
      intro ts
      cases ts with
      | nil => rfl
      | cons t0 ts2 => simp [applyCells, castCell_idem, ih ts2]

/-- C2: whenever the type paired positionally with a cell fails to cast
the cell's value, the pass leaves that cell's value and type exactly as
they were; the pass itself is a total function, so no exception escapes
`apply_types` (the bare except converts every cast failure into leaving
the cell alone). -/
theorem apply_types_failed_cast_unchanged (row : List Cell) (ts : List CellType)
    (i : Nat) (c : Cell) (t : CellType)
    (h1 : row.get? i = Option.some c) (h2 : ts.get? i = Option.some t)
    (h3 : castV t c.value = Option.none) :
    (types_processor (Option.some ts) row).get? i = Option.some c :=
  applyCells_get?_failure row ts i c t h1 h2 h3

/-- C2 (witness): the theorem applied to a one-cell row holding the
non-numeric string x paired with the Integer type. -/
theorem apply_types_failed_cast_unchanged_x :
    (types_processor (Option.some [CellType.integer])
        [⟨Value.str "x", Option.none⟩]).get? 0 =
      Option.some ⟨Value.str "x", Option.none⟩ :=
  apply_types_failed_cast_unchanged [⟨Value.str "x", Option.none⟩] [CellType.integer]
    0 ⟨Value.str "x", Option.none⟩ CellType.integer (by rfl) (by rfl) (by decide)

/-- C8: the pass pairs cells with types positionally; it preserves the
row length (the same row object is returned, mutated in place, so the
value-level content is a row of the same length), every cell beyond the
end of a shorter type list keeps its value and type, and types beyond the
end of the row have no effect on the result. -/
theorem types_processor_positional (row : List Cell) (ts : List CellType) :
    (types_processor (Option.some ts) row).length = row.length ∧
    (∀ i c, ts.length ≤ i → row.get? i = Option.some c →
      (types_processor (Option.some ts) row).get? i = Option.some c) ∧
    types_processor (Option.some ts) row =
      types_processor (Option.some (ts.take row.length)) row :=
  ⟨applyCells_length row ts,
   fun i c hl hg => applyCells_get?_past row ts i c hl hg,
   applyCells_take row ts⟩

/-- C8 (witness): the theorem applied to a one-cell row and a two-type
list: the length is preserved and the extra type is ignored. -/
theorem types_processor_positional_example :
    (types_processor (Option.some [CellType.integer, CellType.float])
        [⟨Value.str "7", Option.none⟩]).length = 1 :=
  (types_processor_positional [⟨Value.str "7", Option.none⟩]
    [CellType.integer, CellType.float]).1

/-- C9: the row-casting pass is idempotent: re-applying the pass built
from the same type list to its own output changes nothing (successfully
cast cells re-cast to themselves, except for Date values on which the
second strptime raises and the fail-soft policy leaves the cell alone),
and in particular the second application never raises. This subsumes the
claim, which restricts attention to rows already successfully cast. -/
theorem types_processor_idempotent (types : Option (List CellType)) (row : List Cell) :
    types_processor types (types_processor types row) = types_processor types row := by
  cases types with
  | none => rfl
  | some ts => exact applyCells_idem row ts

/-- C9 (witness): the pass for Integer, Date applied twice to a row it
fully casts equals the pass applied once. -/
theorem types_processor_idempotent_example :
    types_processor
        (Option.some [CellType.integer, CellType.date (Option.some "%Y-%m-%d")])
        (types_processor
          (Option.some [CellType.integer, CellType.date (Option.some "%Y-%m-%d")])
          [⟨Value.str "7", Option.none⟩, ⟨Value.str "2020-01-01", Option.none⟩]) =
      types_processor
        (Option.some [CellType.integer, CellType.date (Option.some "%Y-%m-%d")])
        [⟨Value.str "7", Option.none⟩, ⟨Value.str "2020-01-01", Option.none⟩] :=
  types_processor_idempotent _ _

/-! The Date test as a first-match search of the catalog. -/

theorem dateTestLoop_first (cat : List (String × String)) (v : Value) :
    (dateTestLoop cat v = Option.none →
      ∀ p ∈ cat, castV (CellType.date (Option.some p.2)) v = Option.none) ∧
    (∀ t, dateTestLoop cat v = Option.some t →
      ∃ i p, cat.get? i = Option.some p ∧ t = CellType.date (Option.some p.2) ∧
        castV (CellType.date (Option.some p.2)) v ≠ Option.none ∧
        ∀ j q, j < i → cat.get? j = Option.some q →
          castV (CellType.date (Option.some q.2)) v = Option.none) := by
  induction cat with
  | nil =>
      constructor
      · intro _ p hp
        simp at hp
      · intro t ht
        simp [dateTestLoop] at ht
  | cons p0 rest ih =>
      obtain ⟨nm, fmt⟩ := p0
      cases hc : castV (CellType.date (Option.some fmt)) v with
      | some w =>
          constructor
          · intro h
            simp [dateTestLoop, hc] at h
          · intro t ht
            simp [dateTestLoop, hc] at ht
            refine ⟨0, (nm, fmt), rfl, ht.symm, by simp [hc], ?_⟩
            intro j q hj
            omega
      | none =>
          constructor
          · intro h p hp
            have h2 : dateTestLoop rest v = Option.none := by
              simpa [dateTestLoop, hc] using h
            rcases List.mem_cons.mp hp with rfl | hmem
            · exact hc
            · exact ih.1 h2 p hmem
          · intro t ht
            have h2 : dateTestLoop rest v = Option.some t := by
              simpa [dateTestLoop, hc] using ht
            obtain ⟨i, p, hget, hteq, hcast, hfirst⟩ := ih.2 t h2
            refine ⟨i + 1, p, by simpa using hget, hteq, hcast, ?_⟩
            intro j q hj hq
            cases j with
            | zero =>
                simp at hq
                subst hq
                exact hc
            | succ j2 =>
                exact hfirst j2 q (by omega) (by simpa using hq)

/-- C6: the Date test searches the bound catalog in order and returns the
first Date instance whose format parses the value, or the negative result
when no catalog format parses it; and the cast of a bound Date instance
is exactly the strptime parse with the bound pattern, failing (raising)
whenever the value does not match it, including every non-string value. -/
theorem dateType_test_first_match (v : Value) :
    (classTest .dateT v = Option.none →
      ∀ p ∈ DATE_FORMATS, castV (CellType.date (Option.some p.2)) v = Option.none) ∧
    (∀ t, classTest .dateT v = Option.some t →
      ∃ i p, DATE_FORMATS.get? i = Option.some p ∧
        t = CellType.date (Option.some p.2) ∧
        castV (CellType.date (Option.some p.2)) v ≠ Option.none ∧
        ∀ j q, j < i → DATE_FORMATS.get? j = Option.some q →
          castV (CellType.date (Option.some q.2)) v = Option.none) ∧
    (∀ fmt s, v = Value.str s →
      castV (CellType.date (Option.some fmt)) v = (pyStrptime s fmt).map dtToValue) ∧
    (∀ fmt, (∀ s, v ≠ Value.str s) →
      castV (CellType.date (Option.some fmt)) v = Option.none) := by
  refine ⟨(dateTestLoop_first DATE_FORMATS v).1, (dateTestLoop_first DATE_FORMATS v).2,
    ?_, ?_⟩
  · intro fmt s hv
    subst hv
    rfl
  · intro fmt hns
    cases v with
    | str s => exact absurd rfl (hns s)
    | none => rfl
    | int n => rfl
    | float m e => rfl
    | decimal m e => rfl
    | date y mo d hh mm ss => rfl

/-- C6 (witness): the theorem applied to the ISO date string, whose first
matching catalog entry is the ISO pattern. -/
theorem dateType_test_first_match_iso :
    ∃ i p, DATE_FORMATS.get? i = Option.some p ∧
      CellType.date (Option.some "%Y-%m-%d") = CellType.date (Option.some p.2) ∧
      castV (CellType.date (Option.some p.2)) (Value.str "2020-01-01") ≠ Option.none ∧
      ∀ j q, j < i → DATE_FORMATS.get? j = Option.some q →
        castV (CellType.date (Option.some q.2)) (Value.str "2020-01-01") = Option.none :=
  (dateType_test_first_match (Value.str "2020-01-01")).2.1
    (CellType.date (Option.some "%Y-%m-%d")) (by decide)


/-! Counting lemmas for the voting dictionary. -/

theorem pyEq_decide (a b : CellType) : pyEq a b = decide (a = b) := by
  by_cases h : a = b
  · rw [(pyEq_iff a b).mpr h]
    exact (decide_eq_true h).symm
  · rw [decide_eq_false h]
    exact Bool.eq_false_iff.mpr (fun hc => h ((pyEq_iff a b).mp hc))

theorem bump_cons_eq (k0 : CellType) (n : Nat) (rest : List (CellType × Nat))
    (k : CellType) (h : k0 = k) :
    bump ((k0, n) :: rest) k = (k0, n + 1) :: rest := by
  simp [bump, pyEq_decide, h]

theorem bump_cons_ne (k0 : CellType) (n : Nat) (rest : List (CellType × Nat))
    (k : CellType) (h : ¬ k0 = k) :
    bump ((k0, n) :: rest) k = (k0, n) :: bump rest k := by
  simp [bump, pyEq_decide, h]

theorem keyCount_cons_eq (k0 : CellType) (n : Nat) (rest : List (CellType × Nat))
    (k : CellType) (h : k0 = k) : keyCount ((k0, n) :: rest) k = n := by
  simp [keyCount, pyEq_decide, h]

theorem keyCount_cons_ne (k0 : CellType) (n : Nat) (rest : List (CellType × Nat))
    (k : CellType) (h : ¬ k0 = k) :
    keyCount ((k0, n) :: rest) k = keyCount rest k := by
  simp [keyCount, pyEq_decide, h]

theorem keysOf_cons (k0 : CellType) (n : Nat) (rest : List (CellType × Nat)) :
    keysOf ((k0, n) :: rest) = k0 :: keysOf rest := rfl

theorem keyCount_bump (g : List (CellType × Nat)) (k k2 : CellType) :
    keyCount (bump g k) k2 =
      if k2 = k then keyCount g k2 + 1 else keyCount g k2 := by
  induction g with
  | nil =>
      by_cases h : k2 = k
      · rw [if_pos h]
        show keyCount [(k, 1)] k2 = keyCount [] k2 + 1
        rw [keyCount_cons_eq _ _ _ _ h.symm]
        rfl
      · rw [if_neg h]
        show keyCount [(k, 1)] k2 = keyCount [] k2
        rw [keyCount_cons_ne _ _ _ _ (fun he => h he.symm)]
  | cons p rest ih =>
      obtain ⟨k0, n⟩ := p
      by_cases h0 : k0 = k
      · subst h0
        rw [bump_cons_eq _ _ _ _ rfl]
        by_cases h2 : k2 = k0
        · subst h2
          rw [if_pos rfl, keyCount_cons_eq _ _ _ _ rfl, keyCount_cons_eq _ _ _ _ rfl]
        · rw [if_neg h2, keyCount_cons_ne _ _ _ _ (fun he => h2 he.symm),
            keyCount_cons_ne _ _ _ _ (fun he => h2 he.symm)]
      · rw [bump_cons_ne _ _ _ _ h0]
        by_cases h2 : k0 = k2
        · subst h2
          rw [if_neg h0, keyCount_cons_eq _ _ _ _ rfl, keyCount_cons_eq _ _ _ _ rfl]
        · rw [keyCount_cons_ne _ _ _ _ h2, keyCount_cons_ne _ _ _ _ h2, ih]

theorem keyCount_foldl (stream : List CellType) :
    ∀ (g0 : List (CellType × Nat)) (k : CellType),
      keyCount (stream.foldl bump g0) k = keyCount g0 k + List.count k stream := by
  induction stream with
  | nil => intro g0 k; simp
  | cons x xs ih =>
      intro g0 k
      simp only [List.foldl_cons]
      rw [ih (bump g0 x) k, keyCount_bump, List.count_cons]
      by_cases h : k = x
      · subst h
        simp
        omega
      · have hbeq : ¬ (x == k) = true := by
          simp
          exact fun he => h he.symm
        rw [if_neg h]
        simp [hbeq]

theorem mem_keysOf_bump (g : List (CellType × Nat)) (k a : CellType) :
    a ∈ keysOf (bump g k) ↔ a ∈ keysOf g ∨ a = k := by
  induction g with
  | nil =>
      show a ∈ keysOf [(k, 1)] ↔ a ∈ keysOf [] ∨ a = k
      simp [keysOf]
  | cons p rest ih =>
      obtain ⟨k0, n⟩ := p
      by_cases h0 : k0 = k
      · subst h0
        rw [bump_cons_eq _ _ _ _ rfl, keysOf_cons, keysOf_cons]
        simp only [List.mem_cons]
        tauto
      · rw [bump_cons_ne _ _ _ _ h0, keysOf_cons, keysOf_cons]
        simp only [List.mem_cons, ih]
        tauto

theorem mem_keysOf_foldl (stream : List CellType) :
    ∀ (g0 : List (CellType × Nat)) (a : CellType),
      a ∈ keysOf (stream.foldl bump g0) ↔ a ∈ keysOf g0 ∨ a ∈ stream := by
  induction stream with
  | nil => intro g0 a; simp
  | cons x xs ih =>
      intro g0 a
      simp only [List.foldl_cons]
      rw [ih (bump g0 x) a, mem_keysOf_bump]
      simp only [List.mem_cons]
      tauto

theorem keysOf_bump_nodup (g : List (CellType × Nat)) (k : CellType)
    (h : (keysOf g).Nodup) : (keysOf (bump g k)).Nodup := by
  induction g with
  | nil =>
      show (keysOf [(k, 1)]).Nodup
      simp [keysOf]
  | cons p rest ih =>
      obtain ⟨k0, n⟩ := p
      rw [keysOf_cons] at h
      obtain ⟨hnotin, hrest⟩ := List.nodup_cons.mp h
      by_cases h0 : k0 = k
      · subst h0
        rw [bump_cons_eq _ _ _ _ rfl, keysOf_cons]
        exact List.nodup_cons.mpr ⟨hnotin, hrest⟩
      · rw [bump_cons_ne _ _ _ _ h0, keysOf_cons]
        refine List.nodup_cons.mpr ⟨?_, ih hrest⟩
        intro hmem
        rcases (mem_keysOf_bump rest k k0).mp hmem with hin | heq
        · exact hnotin hin
        · exact h0 heq

theorem keysOf_foldl_nodup (stream : List CellType) :
    ∀ (g0 : List (CellType × Nat)), (keysOf g0).Nodup →
      (keysOf (stream.foldl bump g0)).Nodup := by
  induction stream with
  | nil => intro g0 h; simpa using h
  | cons x xs ih =>
      intro g0 h
      simpa using ih (bump g0 x) (keysOf_bump_nodup g0 x h)

theorem entry_eq_keyCount (g : List (CellType × Nat)) (h : (keysOf g).Nodup) :
    ∀ p ∈ g, p.2 = keyCount g p.1 := by
  induction g with
  | nil => intro p hp; simp at hp
  | cons q rest ih =>
      obtain ⟨k0, n⟩ := q
      rw [keysOf_cons] at h
      obtain ⟨hnotin, hrest⟩ := List.nodup_cons.mp h
      intro p hp
      rcases List.mem_cons.mp hp with rfl | hmem
      · rw [keyCount_cons_eq _ _ _ _ rfl]
      · have hne : ¬ k0 = p.1 := by
          intro he
          apply hnotin
          rw [he]
          exact List.mem_map_of_mem Prod.fst hmem
        rw [keyCount_cons_ne _ _ _ _ hne]
        exact ih hrest p hmem

theorem keyCount_mem_entry (g : List (CellType × Nat)) (k : CellType)
    (h : k ∈ keysOf g) : (k, keyCount g k) ∈ g := by
  induction g with
  | nil => simp [keysOf] at h
  | cons q rest ih =>
      obtain ⟨k0, n⟩ := q
      by_cases he : k0 = k
      · subst he
        rw [keyCount_cons_eq _ _ _ _ rfl]
        exact List.mem_cons_self _ _
      · rw [keysOf_cons] at h
        rcases List.mem_cons.mp h with h | h
        · exact absurd h.symm he
        · rw [keyCount_cons_ne _ _ _ _ he]
          exact List.mem_cons_of_mem _ (ih h)

/-! Lemmas on the max scan. -/

theorem maxGo_mem (l : List (CellType × Nat)) :
    ∀ (t : CellType) (n : Nat), maxGo t n l = t ∨ maxGo t n l ∈ keysOf l := by
  induction l with
  | nil => intro t n; left; rfl
  | cons p rest ih =>
      obtain ⟨t2, n2⟩ := p
      intro t n
      rw [keysOf_cons]
      simp only [maxGo, List.mem_cons]
      by_cases h : n < n2
      · rw [if_pos h]
        rcases ih t2 n2 with h2 | h2
        · right; left; exact h2
        · right; right; exact h2
      · rw [if_neg h]
        rcases ih t n with h2 | h2
        · left; exact h2
        · right; right; exact h2

theorem maxByCount_mem (g : List (CellType × Nat)) (k : CellType)
    (h : maxByCount g = Option.some k) : k ∈ keysOf g := by
  cases g with
  | nil => exact absurd h (by simp [maxByCount])
  | cons p rest =>
      obtain ⟨t, n⟩ := p
      have hk : maxGo t n rest = k := by
        simpa [maxByCount] using h
      rw [keysOf_cons]
      rcases maxGo_mem rest t n with h2 | h2
      · rw [← hk, h2]
        exact List.mem_cons_self _ _
      · rw [← hk]
        exact List.mem_cons_of_mem _ h2

theorem maxGo_keep (l : List (CellType × Nat)) :
    ∀ (t : CellType) (n : Nat), (∀ p ∈ l, ¬ n < p.2) → maxGo t n l = t := by
  induction l with
  | nil => intro t n _; rfl
  | cons p rest ih =>
      obtain ⟨t2, n2⟩ := p
      intro t n h
      simp only [maxGo]
      rw [if_neg (h (t2, n2) (by simp))]
      exact ih t n (fun q hq => h q (by simp [hq]))

theorem maxGo_pick (k0 : CellType) (q0 : Nat) (l : List (CellType × Nat)) :
    ∀ (t : CellType) (n : Nat), n < q0 → (k0, q0) ∈ l →
      (∀ p ∈ l, p = (k0, q0) ∨ p.2 < q0) → maxGo t n l = k0 := by
  induction l with
  | nil => intro t n _ hmem _; simp at hmem
  | cons p rest ih =>
      obtain ⟨t2, n2⟩ := p
      intro t n hn hmem hall
      by_cases hhead : (t2, n2) = (k0, q0)
      · rw [Prod.mk.injEq] at hhead
        obtain ⟨rfl, rfl⟩ := hhead
        simp only [maxGo]
        rw [if_pos hn]
        apply maxGo_keep
        intro q hq
        rcases hall q (by simp [hq]) with rfl | hlt
        · omega
        · omega
      · have hn2lt : n2 < q0 := by
          rcases hall (t2, n2) (by simp) with he | hlt
          · exact absurd he hhead
          · exact hlt
        have hmem2 : (k0, q0) ∈ rest := by
          rcases List.mem_cons.mp hmem with he | h
          · exact absurd he.symm hhead
          · exact h
        have hall2 : ∀ p ∈ rest, p = (k0, q0) ∨ p.2 < q0 :=
          fun q hq => hall q (by simp [hq])
        simp only [maxGo]
        by_cases hlt : n < n2
        · rw [if_pos hlt]
          exact ih t2 n2 hn2lt hmem2 hall2
        · rw [if_neg hlt]
          exact ih t n hn hmem2 hall2

theorem maxByCount_pick (k0 : CellType) (q0 : Nat) (g : List (CellType × Nat))
    (hmem : (k0, q0) ∈ g) (hall : ∀ p ∈ g, p = (k0, q0) ∨ p.2 < q0) :
    maxByCount g = Option.some k0 := by
  cases g with
  | nil => simp at hmem
  | cons p rest =>
      obtain ⟨t, n⟩ := p
      simp only [maxByCount, Option.some.injEq]
      by_cases hhead : (t, n) = (k0, q0)
      · rw [Prod.mk.injEq] at hhead
        obtain ⟨rfl, rfl⟩ := hhead
        apply maxGo_keep
        intro q hq
        rcases hall q (by simp [hq]) with rfl | hlt
        · omega
        · omega
      · have hnlt : n < q0 := by
          rcases hall (t, n) (by simp) with he | hlt
          · exact absurd he hhead
          · exact hlt
        have hmem2 : (k0, q0) ∈ rest := by
          rcases List.mem_cons.mp hmem with he | h
          · exact absurd he.symm hhead
          · exact h
        exact maxGo_pick k0 q0 rest t n hnlt hmem2
          (fun q hq => hall q (by simp [hq]))

/-! Per-value facts about the positives one cell contributes. -/

theorem count_classTest_le (v : Value) (k : CellType) :
    ∀ l : List PyClass, l.Nodup →
      List.count k (l.filterMap (fun c => classTest c v)) ≤ 1 := by
  intro l
  induction l with
  | nil => intro _; simp
  | cons c cs ih =>
      intro hnd
      obtain ⟨hnotin, hcs⟩ := List.nodup_cons.mp hnd
      rw [List.filterMap_cons]
      cases hc : classTest c v with
      | none => exact ih hcs
      | some t =>
          rw [List.count_cons]
          by_cases hk : t = k
          · subst hk
            have hzero : List.count t (cs.filterMap (fun c2 => classTest c2 v)) = 0 := by
              rw [List.count_eq_zero]
              intro hmem
              obtain ⟨c2, hc2, hc2t⟩ := List.mem_filterMap.mp hmem
              have h1 := classTest_class c v t hc
              have h2 := classTest_class c2 v t hc2t
              have hcc : c = c2 := h1.symm.trans h2
              exact hnotin (hcc ▸ hc2)
            rw [hzero]
            simp
          · have hbeq : ¬ ((t == k) = true) := by simp [hk]
            rw [if_neg hbeq]
            have := ih hcs
            omega

theorem count_positives_le (v : Value) (k : CellType) :
    List.count k (positives v) ≤ 1 :=
  count_classTest_le v k TYPES (by decide)

theorem count_positives_eq_one (v : Value) (k : CellType) (c0 : PyClass)
    (hc0 : c0 ∈ TYPES) (h : classTest c0 v = Option.some k) :
    List.count k (positives v) = 1 := by
  have hle := count_positives_le v k
  have hmem : k ∈ positives v := List.mem_filterMap.mpr ⟨c0, hc0, h⟩
  have hpos : 0 < List.count k (positives v) := List.count_pos_iff.mpr hmem
  omega

theorem count_flatten_le (vs : List Value) (k : CellType) :
    List.count k ((vs.map positives).flatten) ≤ vs.length := by
  induction vs with
  | nil => simp
  | cons v vs2 ih =>
      simp only [List.map_cons, List.flatten_cons, List.count_append, List.length_cons]
      have h1 := count_positives_le v k
      omega

theorem count_flatten_eq (vs : List Value) (k : CellType)
    (h : ∀ v ∈ vs, List.count k (positives v) = 1) :
    List.count k ((vs.map positives).flatten) = vs.length := by
  induction vs with
  | nil => simp
  | cons v vs2 ih =>
      simp only [List.map_cons, List.flatten_cons, List.count_append, List.length_cons]
      rw [h v (by simp), ih (fun u hu => h u (by simp [hu]))]
      omega

theorem mem_flatten_positives (vs : List Value) (k : CellType) :
    k ∈ (vs.map positives).flatten ↔ ∃ v ∈ vs, k ∈ positives v := by
  rw [List.mem_flatten]
  constructor
  · rintro ⟨s, hs, hk⟩
    obtain ⟨v, hv, rfl⟩ := List.mem_map.mp hs
    exact ⟨v, hv, hk⟩
  · rintro ⟨v, hv, hk⟩
    exact ⟨positives v, List.mem_map_of_mem positives hv, hk⟩

/-! Glue lemmas for a single-column sample. -/

theorem colValues_singletons (vs : List Value) :
    colValues (vs.map fun v => [v]) 0 = vs := by
  rw [colValues, List.filterMap_map]
  show List.filterMap (fun v => Option.some v) vs = vs
  simp

theorem mem_colValues_singletons (vs : List Value) (v : Value) (i : Nat)
    (h : v ∈ colValues (vs.map fun x => [x]) i) : v ∈ vs := by
  rw [colValues, List.filterMap_map] at h
  obtain ⟨x, hx, hfx⟩ := List.mem_filterMap.mp h
  cases i with
  | zero =>
      have : v = x := by
        simpa using hfx.symm
      exact this ▸ hx
  | succ n =>
      exact absurd hfx (by simp)

theorem numCols_singletons (vs : List Value) (h : vs ≠ []) :
    numCols (vs.map fun v => [v]) = 1 := by
  have key : ∀ (ws : List Value) (a : Nat), a ≤ 1 →
      List.foldl (fun acc r => max acc r.length) a (ws.map fun v => [v]) =
        if ws = [] then a else 1 := by
    intro ws
    induction ws with
    | nil => intro a _; simp
    | cons w ws2 ih =>
        intro a ha
        simp only [List.map_cons, List.foldl_cons]
        have hmax : max a ([w].length) = 1 := by
          simp
          omega
        rw [hmax, ih 1 (by omega)]
        simp
  rw [numCols, key vs 0 (by omega), if_neg h]

theorem keysOf_weightCounts (g : List (CellType × Nat)) :
    keysOf (weightCounts g) = keysOf g := by
  rw [weightCounts, keysOf, keysOf, List.map_map]
  rfl

/-- C5: over a single-column sample, if every value tests positive for
Integer and the Date test returns the same format-bound Date instance on
every value (equal raw counts), the guesser selects that Date instance:
its weight 3 beats every other candidate weight (String 1, Integer 1.5,
Float 2, Decimal 2.5) at equal or smaller counts. And whenever the Date
test is negative on every sampled value, no Date instance can ever be
selected, since Date then never acquires a counter. -/
theorem type_guess_weight_tiebreak (vs : List Value) (fmt : String)
    (hvs : vs ≠ [])
    (hint : ∀ v ∈ vs, classTest .integerT v = Option.some CellType.integer) :
    ((∀ v ∈ vs, classTest .dateT v = Option.some (CellType.date (Option.some fmt))) →
      type_guess (vs.map fun v => [v]) = [CellType.date (Option.some fmt)]) ∧
    ((∀ v ∈ vs, classTest .dateT v = Option.none) →
      ∀ f, CellType.date f ∉ type_guess (vs.map fun v => [v])) := by
  constructor
  · intro hdate
    have hn : 0 < vs.length := List.length_pos.mpr hvs
    have hg : colGuess (vs.map fun v => [v]) 0 =
        ((vs.map positives).flatten).foldl bump [] := by
      unfold colGuess
      rw [colValues_singletons]
    have hcount : ∀ k, keyCount (colGuess (vs.map fun v => [v]) 0) k =
        List.count k ((vs.map positives).flatten) := by
      intro k
      rw [hg, keyCount_foldl]
      simp [keyCount]
    have hcount0 : keyCount (colGuess (vs.map fun v => [v]) 0)
        (CellType.date (Option.some fmt)) = vs.length := by
      rw [hcount]
      exact count_flatten_eq vs _
        (fun v hv => count_positives_eq_one v _ .dateT (by decide) (hdate v hv))
    have hnodup : (keysOf (colGuess (vs.map fun v => [v]) 0)).Nodup := by
      rw [hg]
      exact keysOf_foldl_nodup _ [] (by simp [keysOf])
    have hmemk0 : CellType.date (Option.some fmt) ∈
        keysOf (colGuess (vs.map fun v => [v]) 0) := by
      rw [hg, mem_keysOf_foldl]
      right
      rw [mem_flatten_positives]
      obtain ⟨v0, hv0⟩ : ∃ v0, v0 ∈ vs := by
        cases vs with
        | nil => exact absurd rfl hvs
        | cons a l => exact ⟨a, by simp⟩
      exact ⟨v0, hv0, List.mem_filterMap.mpr ⟨.dateT, by decide, hdate v0 hv0⟩⟩
    have hentry : (CellType.date (Option.some fmt), vs.length) ∈
        colGuess (vs.map fun v => [v]) 0 := by
      have h2 := keyCount_mem_entry _ _ hmemk0
      rwa [hcount0] at h2
    have hwmem : (CellType.date (Option.some fmt), vs.length * 6) ∈
        weightCounts (colGuess (vs.map fun v => [v]) 0) := by
      unfold weightCounts
      exact List.mem_map.mpr ⟨(CellType.date (Option.some fmt), vs.length), hentry, rfl⟩
    have hall : ∀ p ∈ weightCounts (colGuess (vs.map fun v => [v]) 0),
        p = (CellType.date (Option.some fmt), vs.length * 6) ∨
          p.2 < vs.length * 6 := by
      intro p hp
      unfold weightCounts at hp
      obtain ⟨q, hq, rfl⟩ := List.mem_map.mp hp
      obtain ⟨k, c⟩ := q
      dsimp only
      have hc : c = keyCount (colGuess (vs.map fun v => [v]) 0) k :=
        entry_eq_keyCount _ hnodup (k, c) hq
      have hkmem : k ∈ keysOf (colGuess (vs.map fun v => [v]) 0) := by
        rw [keysOf]
        exact List.mem_map_of_mem Prod.fst hq
      have hkstream : k ∈ (vs.map positives).flatten := by
        have h3 := (mem_keysOf_foldl _ [] k).mp (hg ▸ hkmem)
        simpa [keysOf] using h3
      obtain ⟨v, hv, hkpos⟩ := (mem_flatten_positives vs k).mp hkstream
      obtain ⟨c2, hc2, hc2k⟩ := List.mem_filterMap.mp hkpos
      have hcl : instClass k = c2 := classTest_class c2 v k hc2k
      have hcle : c ≤ vs.length := by
        rw [hc, hcount]
        exact count_flatten_le vs k
      cases k with
      | date f2 =>
          have hc2d : PyClass.dateT = c2 := hcl
          rw [← hc2d] at hc2k
          left
          have h4 : Option.some (CellType.date f2) =
              Option.some (CellType.date (Option.some fmt)) :=
            hc2k.symm.trans (hdate v hv)
          have h5 : f2 = Option.some fmt := by
            injection h4 with h6
            injection h6
          subst h5
          rw [hc, hcount0]
          rfl
      | null =>
          have h3 : PyClass.nullT = c2 := hcl
          rw [← h3] at hc2
          exact absurd hc2 (by decide)
      | string =>
          right
          simp only [guessing_weight_x2]
          omega
      | integer =>
          right
          simp only [guessing_weight_x2]
          omega
      | float =>
          right
          simp only [guessing_weight_x2]
          omega
      | decimal =>
          right
          simp only [guessing_weight_x2]
          omega
    have hmax : maxByCount (weightCounts (colGuess (vs.map fun v => [v]) 0)) =
        Option.some (CellType.date (Option.some fmt)) :=
      maxByCount_pick _ (vs.length * 6) _ hwmem hall
    unfold type_guess
    have hr : List.range 1 = [0] := by decide
    rw [numCols_singletons vs hvs, hr]
    simp only [List.filterMap_cons, List.filterMap_nil, hmax]
  · intro hdate f hmem
    unfold type_guess at hmem
    obtain ⟨i, hirange, hf⟩ := List.mem_filterMap.mp hmem
    have hkmem := maxByCount_mem _ _ hf
    rw [keysOf_weightCounts] at hkmem
    unfold colGuess at hkmem
    have hstream := (mem_keysOf_foldl _ [] _).mp hkmem
    rcases hstream with hnil | hstream
    · simp [keysOf] at hnil
    obtain ⟨v, hv, hkpos⟩ := (mem_flatten_positives _ _).mp hstream
    have hvvs : v ∈ vs := mem_colValues_singletons vs v i hv
    obtain ⟨c2, hc2, hc2k⟩ := List.mem_filterMap.mp hkpos
    have hcl : PyClass.dateT = c2 := classTest_class c2 v _ hc2k
    rw [← hcl] at hc2k
    rw [hdate v hvvs] at hc2k
    simp at hc2k

/-- C5 (witness): the theorem applied to a one-value column positive for
both Integer and the compact date pattern, and to a one-value column
positive for Integer only. -/
theorem type_guess_weight_tiebreak_example :
    type_guess [[Value.str "20200101"]] =
      [CellType.date (Option.some "%Y%m%d")] ∧
    ∀ f, CellType.date f ∉ type_guess [[Value.str "5"]] := by
  constructor
  · exact (type_guess_weight_tiebreak [Value.str "20200101"] "%Y%m%d" (by simp)
      (by intro v hv; simp at hv; subst hv; decide)).1
      (by intro v hv; simp at hv; subst hv; decide)
  · exact (type_guess_weight_tiebreak [Value.str "5"] "%Y%m%d" (by simp)
      (by intro v hv; simp at hv; subst hv; decide)).2
      (by intro v hv; simp at hv; subst hv; decide)
